import Mathlib

/-!
Verification of the key-value object store (niks3089/endor-coding-test).

The repository stores typed records (Person, Animal) in Redis under composite
keys of the form `id::name::kind` and retrieves them by glob pattern scans.
Go strings are embedded as `List Char`; the Redis backend is embedded as an
association list of key/value bindings; Go's `error` results become `Except`.

Source files:
  * src/db.go        — RedisDB: Store, GetObjectByID, GetObjectsByName,
                       ListObjects, DeleteObject, listObjects
  * src/object.go    — Object interface, Person, Animal, getKind, extractObject
  * src/unnamed/part_000 — a second variant of db.go present in the repository
                       (Store validates empty name/kind and marshals after
                       SetID; listObjects extracts with `key`, not `keys[0]`)
-/

set_option autoImplicit false

namespace ObjectStore

/-- Go strings, embedded as lists of characters. -/
abbrev Str := List Char

/-- The reserved two-character key delimiter `"::"`. -/
def sep : Str := [':', ':']

/-- `hasPre pat s` holds when `pat` is an initial segment of `s`
(Go `strings.HasPrefix`). -/
def hasPre : Str → Str → Bool
  | [], _ => true
  | _ :: _, [] => false
  | c :: p, d :: s => c = d && hasPre p s

/-- `hasSub pat s` holds when `pat` occurs as a contiguous substring of `s`
(Go `strings.Contains`). -/
def hasSub (pat : Str) : Str → Bool
  | [] => hasPre pat []
  | s@(_ :: rest) => hasPre pat s || hasSub pat rest

/-- Go `strings.Count(s, "::")`: the number of non-overlapping occurrences of
the delimiter, scanning left to right (src/db.go:93). -/
def countDelims : Str → Nat
  | [] => 0
  | [_] => 0
  | c :: d :: rest =>
    if c = ':' ∧ d = ':' then countDelims rest + 1
    else countDelims (d :: rest)

/-- Modelled from the spec: the backend's glob-style key pattern matching with
the `*` wildcard (`keys(pattern)` of §6; the Redis client is an external
collaborator, not code under src/). `*` matches any sequence of characters;
every other pattern character matches itself. -/
def globMatch : Str → Str → Bool
  | [], s => s.isEmpty
  | c :: p, s =>
    if c = '*' then (List.range (s.length + 1)).any fun i => globMatch p (s.drop i)
    else
      match s with
      | [] => false
      | d :: s' => c = d && globMatch p s'

/-- The suffix of `l` after the last occurrence of `"::"`, when one exists.
Helper for `getKind` below. -/
def afterLastSep : Str → Option Str
  | [] => none
  | [_] => none
  | c :: d :: rest =>
    match afterLastSep (d :: rest) with
    | some r => some r
    | none => if c = ':' ∧ d = ':' then some rest else none

/-- src/object.go:89-96 `getKind`: apply the Go regexp `^.*::(.*)$` to the key
and return the capture, or `""` when there is no match.  In Go's RE2, `.`
does not match a newline and `^`/`$` anchor at the ends of the text, so a key
containing `'\n'` never matches; otherwise the greedy `.*` selects the last
occurrence of `"::"` and the capture is the suffix after it. -/
def getKind (key : Str) : Str :=
  if key.contains '\n' then []
  else
    match afterLastSep key with
    | some r => r
    | none => []

/-- src/object.go:28-34 `Person` (json field tags: name, id, last_name,
birthday, birthdate; `BirthDate : time.Time` is embedded by its serialized
RFC 3339 text). -/
structure Person where
  Name : Str
  ID : Str
  LastName : Str
  Birthday : Str
  BirthDate : Str
deriving DecidableEq

/-- src/object.go:36-41 `Animal` (json field tags: name, id, type, owner_id;
the Go field `Type` is rendered `Type'` because `Type` is reserved in Lean). -/
structure Animal where
  Name : Str
  ID : Str
  Type' : Str
  OwnerID : Str
deriving DecidableEq

/-- src/object.go:15-26: the `Object` interface, closed over its two
implementations `*Person` and `*Animal`. -/
inductive Object
  | person (p : Person)
  | animal (a : Animal)
deriving DecidableEq

/-- `reflect.TypeOf(p).String()` for `p : *main.Person` (src/object.go:43-45). -/
def personKind : Str :=
  ['*', 'm', 'a', 'i', 'n', '.', 'P', 'e', 'r', 's', 'o', 'n']

/-- `reflect.TypeOf(p).String()` for `p : *main.Animal` (src/object.go:65-67). -/
def animalKind : Str :=
  ['*', 'm', 'a', 'i', 'n', '.', 'A', 'n', 'i', 'm', 'a', 'l']

/-- `Object.GetKind` (src/object.go:43-45, 65-67). -/
def Object.GetKind : Object → Str
  | .person _ => personKind
  | .animal _ => animalKind

/-- `Object.GetID` (src/object.go:47-49, 69-71). -/
def Object.GetID : Object → Str
  | .person p => p.ID
  | .animal a => a.ID

/-- `Object.GetName` (src/object.go:51-53, 73-75). -/
def Object.GetName : Object → Str
  | .person p => p.Name
  | .animal a => a.Name

/-- `Object.SetID` (src/object.go:54-56, 77-79): Go mutates the record through
the pointer; the embedding returns the mutated record. -/
def Object.SetID : Object → Str → Object
  | .person p, s => .person { p with ID := s }
  | .animal a, s => .animal { a with ID := s }

/-- A serialized record as Go's `encoding/json` renders it: a field-name
tagged document holding the union of the two structs' tagged fields, a field
absent when the marshalled struct does not declare it. -/
structure JsonDoc where
  name : Option Str
  id : Option Str
  last_name : Option Str
  birthday : Option Str
  birthdate : Option Str
  type_ : Option Str
  owner_id : Option Str
deriving DecidableEq

/-- A value held by the backend: either a well-formed JSON document or bytes
that are not valid JSON (`json.Unmarshal` fails on the latter). -/
inductive Payload
  | doc (d : JsonDoc)
  | raw (s : Str)
deriving DecidableEq

/-- `json.Marshal(object)` (src/db.go:85): every tagged field of the concrete
struct is emitted. -/
def marshal : Object → Payload
  | .person p =>
    .doc ⟨some p.Name, some p.ID, some p.LastName, some p.Birthday,
      some p.BirthDate, none, none⟩
  | .animal a =>
    .doc ⟨some a.Name, some a.ID, none, none, none, some a.Type', some a.OwnerID⟩

/-- The serialized form of Go's zero `time.Time`, which a missing `birthdate`
field leaves in place after `json.Unmarshal`. -/
def zeroTime : Str :=
  ['0', '0', '0', '1', '-', '0', '1', '-', '0', '1', 'T',
   '0', '0', ':', '0', '0', ':', '0', '0', 'Z']

/-- Errors the system raises, one constructor per distinct Go error
(src/db.go, src/object.go); `nilGet` is the client's error for reading an
absent key. -/
inductive Err
  | notFound
  | ambiguousID
  | restrictedDelimiter
  | emptyNameReq
  | emptyKindReq
  | unknownObjectKind
  | badJson
  | nilGet
  | missingName
  | missingKind
deriving DecidableEq

/-- `json.Unmarshal([]byte(value), object)` with `object = &Person{}`
(src/object.go:108-113): a tagged field fills the matching struct field,
unknown fields are ignored, a missing field leaves the zero value. -/
def unmarshalPerson : Payload → Except Err Object
  | .raw _ => .error .badJson
  | .doc d =>
    .ok (.person ⟨d.name.getD [], d.id.getD [], d.last_name.getD [],
      d.birthday.getD [], d.birthdate.getD zeroTime⟩)

/-- `json.Unmarshal([]byte(value), object)` with `object = &Animal{}`
(src/object.go:106-113). -/
def unmarshalAnimal : Payload → Except Err Object
  | .raw _ => .error .badJson
  | .doc d =>
    .ok (.animal ⟨d.name.getD [], d.id.getD [], d.type_.getD [],
      d.owner_id.getD []⟩)

/-- src/object.go:98-118 `extractObject`: decode the kind from the key and
deserialize the value into the concrete type it names (the `Animal` case is
tested first, as in the Go `switch`), or fail with the unknown-kind error. -/
def extractObject (key : Str) (value : Payload) : Except Err Object :=
  let kind := getKind key
  if kind = animalKind then unmarshalAnimal value
  else if kind = personKind then unmarshalPerson value
  else .error .unknownObjectKind

/-- The backend's persisted state: its key/value bindings, in insertion
order. -/
abbrev State := List (Str × Payload)

/-- `db.client.Keys(pattern).Result()`: every stored key matching the glob
pattern. -/
def keysOf (st : State) (pattern : Str) : List Str :=
  (st.filter fun kv => globMatch pattern kv.1).map Prod.fst

/-- `db.client.Get(key).Result()`: the value bound to `key`, or `none`
(redis.Nil) when the key is absent. -/
def getVal (st : State) (k : Str) : Option Payload :=
  (st.find? fun kv => kv.1 = k).map Prod.snd

/-- `db.client.Set(key, value, 0)`: bind `key` to `value`, overwriting an
existing binding. -/
def setVal (st : State) (k : Str) (v : Payload) : State :=
  if st.any (fun kv => kv.1 = k) then
    st.map fun kv => if kv.1 = k then (k, v) else kv
  else st ++ [(k, v)]

/-- `db.client.Del(key)`: remove every binding of `key`. -/
def delKey (st : State) (k : Str) : State :=
  st.filter fun kv => ¬ kv.1 = k

/-- The key built by `Store` (src/db.go:91):
`id + "::" + object.GetName() + "::" + object.GetKind()`. -/
def storeKey (id : Str) (object : Object) : Str :=
  id ++ sep ++ object.GetName ++ sep ++ object.GetKind

/-- src/db.go:82-103 `RedisDB.Store`.  The generated `uuid.New().String()` is
passed in as `id`.  The Go code marshals the object BEFORE `SetID` runs
(line 85 before line 90), then sets the id, builds the key, rejects it when
the delimiter count differs from 2, and otherwise writes key→value.  The
returned pair carries the caller's record as the call leaves it (Go mutates
it through the `Object` pointer) and the outcome. -/
def Store (st : State) (object : Object) (id : Str) : Object × Except Err State :=
  let value := marshal object
  let object' := object.SetID id
  let key := storeKey id object'
  if countDelims key ≠ 2 then (object', .error .restrictedDelimiter)
  else (object', .ok (setVal st key value))

/-- The id-scan pattern `fmt.Sprintf("%s::*::*", id)` (src/db.go:106, 145). -/
def patById (id : Str) : Str := id ++ [':', ':', '*', ':', ':', '*']

/-- The name-scan pattern `fmt.Sprintf("*::%s::*", name)` (src/db.go:133). -/
def patByName (name : Str) : Str := ['*', ':', ':'] ++ name ++ [':', ':', '*']

/-- The kind-scan pattern `fmt.Sprintf("*::*::%s", kind)` (src/db.go:141). -/
def patByKind (kind : Str) : Str := ['*', ':', ':', '*', ':', ':'] ++ kind

/-- src/db.go:105-126 `RedisDB.GetObjectByID`: scan with the id pattern;
zero matches is not-found, more than one is the ambiguous-id error, one
match fetches `keys[0]` and extracts through that key's kind. -/
def GetObjectByID (st : State) (id : Str) : Except Err Object :=
  match keysOf st (patById id) with
  | [] => .error .notFound
  | [k] =>
    match getVal st k with
    | none => .error .nilGet
    | some v => extractObject k v
  | _ :: _ :: _ => .error .ambiguousID

/-- One iteration of the scan loop in src/db.go:54-65: fetch the key's value
and extract it — through `keys[0]` (`k0`), which is what line 59 passes to
`extractObject` for every matched key. -/
def scanStep (st : State) (k0 k : Str) : Except Err Object :=
  match getVal st k with
  | none => .error .nilGet
  | some v => extractObject k0 v

/-- The scan loop of src/db.go:54-65 over the matched keys, aborting on the
first failing fetch or extraction. -/
def extractLoop (st : State) (k0 : Str) : List Str → Except Err (List Object)
  | [] => .ok []
  | k :: ks =>
    match scanStep st k0 k with
    | .error e => .error e
    | .ok o =>
      match extractLoop st k0 ks with
      | .error e => .error e
      | .ok os => .ok (o :: os)

/-- src/db.go:41-67 `RedisDB.listObjects`: scan for the pattern's keys and
extract every match (an empty scan returns the empty list with no error). -/
def listObjects (st : State) (pattern : Str) : Except Err (List Object) :=
  match keysOf st pattern with
  | [] => .ok []
  | k0 :: rest => extractLoop st k0 (k0 :: rest)

/-- src/db.go:128-134 `RedisDB.GetObjectsByName`: reject an empty name, then
scan with the name pattern. -/
def GetObjectsByName (st : State) (name : Str) : Except Err (List Object) :=
  if name = [] then .error .emptyNameReq
  else listObjects st (patByName name)

/-- src/db.go:136-142 `RedisDB.ListObjects`: reject an empty kind, then scan
with the kind pattern. -/
def ListObjects (st : State) (kind : Str) : Except Err (List Object) :=
  if kind = [] then .error .emptyKindReq
  else listObjects st (patByKind kind)

/-- src/db.go:144-165 `RedisDB.DeleteObject`: scan with the id pattern; zero
matches is a successful no-op, several matches is the ambiguous-id error, one
match deletes that key. -/
def DeleteObject (st : State) (id : Str) : Except Err State :=
  match keysOf st (patById id) with
  | [] => .ok st
  | [k] => .ok (delKey st k)
  | _ :: _ :: _ => .error .ambiguousID

/-- src/unnamed/part_000:73-103, the repository's second variant of
`RedisDB.Store`: it rejects an empty name or kind up front, and it runs
`SetID` BEFORE `json.Marshal`, so the stored payload carries the assigned
id. -/
def Store_v2 (st : State) (object : Object) (id : Str) : Object × Except Err State :=
  if object.GetName = [] then (object, .error .missingName)
  else if object.GetKind = [] then (object, .error .missingKind)
  else
    let object' := object.SetID id
    let value := marshal object'
    let key := storeKey id object'
    if countDelims key ≠ 2 then (object', .error .restrictedDelimiter)
    else (object', .ok (setVal st key value))

/-- The scan loop of src/unnamed/part_000:45-56, the repository's second
variant of `listObjects`: it extracts each value through its own key. -/
def extractLoop_v2 (st : State) : List Str → Except Err (List Object)
  | [] => .ok []
  | k :: ks =>
    match scanStep st k k with
    | .error e => .error e
    | .ok o =>
      match extractLoop_v2 st ks with
      | .error e => .error e
      | .ok os => .ok (o :: os)

/-! ### Concrete fixtures used by the theorems below -/

/-- A generated uuid stand-in. -/
def uuidA : Str := ['u', '1']

/-- A second generated uuid stand-in. -/
def uuidB : Str := ['u', '2']

/-- A caller-constructed person: no id yet, name `"al"`. -/
def alice : Person := ⟨['a', 'l'], [], ['j', 'o'], ['b', 'd'], ['t', '1']⟩

/-- A caller-constructed person with an empty name. -/
def aliceNoName : Person := ⟨[], [], ['j', 'o'], ['b', 'd'], ['t', '1']⟩

/-- A caller-constructed person whose name is exactly `"a::b"`. -/
def aliceAB : Person := ⟨['a', ':', ':', 'b'], [], ['j', 'o'], ['b', 'd'], ['t', '1']⟩

/-- A caller-constructed person whose name is `"a:b"` (single colon). -/
def aliceColon : Person := ⟨['a', ':', 'b'], [], ['j', 'o'], ['b', 'd'], ['t', '1']⟩

/-- A stored animal named `"nn"` with id `"u1"`. -/
def fluffy : Animal := ⟨['n', 'n'], uuidA, ['c', 't'], ['o', 'w']⟩

/-- A stored person named `"nn"` with id `"u2"`. -/
def patty : Person := ⟨['n', 'n'], uuidB, ['j', 'o'], ['b', 'd'], ['t', '1']⟩

/-- The key `"u1::nn::*main.Animal"`. -/
def keyFluffy : Str := uuidA ++ sep ++ ['n', 'n'] ++ sep ++ animalKind

/-- The key `"u2::nn::*main.Person"`. -/
def keyPatty : Str := uuidB ++ sep ++ ['n', 'n'] ++ sep ++ personKind

/-- A backend holding one animal and one person, both named `"nn"`. -/
def stMixed : State :=
  [(keyFluffy, marshal (.animal fluffy)), (keyPatty, marshal (.person patty))]

/-- A stored animal named `"tx"` with id `"u1"`. -/
def tiger : Animal := ⟨['t', 'x'], uuidA, ['c', 't'], ['o', 'w']⟩

/-- The key `"u1::tx::*main.Animal"`. -/
def keyTiger : Str := uuidA ++ sep ++ ['t', 'x'] ++ sep ++ animalKind

/-- A backend holding exactly the record `tiger`. -/
def stWild : State := [(keyTiger, marshal (.animal tiger))]

/-! ### Claim theorems -/

/-- Claim C1.  The round-trip claim fails on src/db.go as written: `Store`
marshals the payload (line 85) before `SetID` runs (line 90), so the persisted
payload — and hence the record `GetObjectByID` returns — carries the record's
pre-store id, not the freshly assigned one.  Here `Store` of `alice`
(whose id is `""`) under fresh id `"u1"` succeeds, and `GetObjectByID "u1"`
returns a record equal to `alice` in every field, with id `""` rather than
`"u1"`.  (The repository's second variant, src/unnamed/part_000:81-87, sets
the id before marshalling, which is the behaviour the claim describes.) -/
theorem store_then_get_returns_stale_id :
    (Store [] (Object.person alice) uuidA).2
        = .ok [(storeKey uuidA ((Object.person alice).SetID uuidA),
                marshal (.person alice))]
      ∧ GetObjectByID
          [(storeKey uuidA ((Object.person alice).SetID uuidA),
            marshal (.person alice))] uuidA
        = .ok (.person alice)
      ∧ alice.ID = []
      ∧ (Object.person alice).GetID ≠ uuidA :=
  ⟨rfl, rfl, rfl, by decide⟩

/-- Claim C2.  The per-match typing claim fails on src/db.go as written: the
scan loop (line 59) passes `keys[0]` — the FIRST matched key — to
`extractObject` for every match, so every payload is deserialized into the
concrete type named by the first key's kind segment.  With an animal and a
person both stored under the name `"nn"`, `GetObjectsByName "nn"` returns two
records, but the second is an `Animal` even though its own key's kind segment
is `*main.Person`.  (The repository's second variant,
src/unnamed/part_000:50, passes `key` instead.) -/
theorem name_scan_decodes_by_first_key_kind :
    GetObjectsByName stMixed ['n', 'n']
        = .ok [.animal fluffy, .animal ⟨['n', 'n'], uuidB, [], []⟩]
      ∧ getKind keyPatty = personKind :=
  ⟨rfl, rfl⟩

/-- Claim C3.  The empty-input rejection claim fails on src/db.go as written:
`Store` performs no empty-name/empty-kind check, and an empty name leaves the
built key `"u1::::*main.Person"` with exactly 2 delimiter occurrences, so the
record is written to the backend and the call succeeds.  (The repository's
second variant, src/unnamed/part_000:74-79, rejects empty names and kinds,
and the test src/unnamed/part_003:103-105 asserts that rejection.) -/
theorem store_accepts_empty_name :
    (Object.person aliceNoName).GetName = []
      ∧ (Store [] (Object.person aliceNoName) uuidA).2
        = .ok [(storeKey uuidA ((Object.person aliceNoName).SetID uuidA),
                marshal (.person aliceNoName))] :=
  ⟨rfl, rfl⟩

/-- Claim C4.  `Store` fails with the restricted-delimiter error exactly when
the built key's non-overlapping count of `"::"` differs from 2 (src/db.go:93),
and no write happens on that path (the error is returned before
`client.Set`).  In particular a record named `"a::b"` is rejected while one
named `"a:b"` is accepted and written. -/
theorem store_delimiter_count_check :
    (∀ (st : State) (r : Object) (i : Str),
        (Store st r i).2 = .error .restrictedDelimiter
          ↔ countDelims (storeKey i (r.SetID i)) ≠ 2)
      ∧ (Store [] (Object.person aliceAB) uuidA).2 = .error .restrictedDelimiter
      ∧ (Store [] (Object.person aliceColon) uuidA).2
        = .ok [(storeKey uuidA ((Object.person aliceColon).SetID uuidA),
                marshal (.person aliceColon))] := by
  refine ⟨fun st r i => ?_, rfl, rfl⟩
  by_cases h : countDelims (storeKey i (r.SetID i)) ≠ 2 <;> simp [Store, h]

/-- Claim C10.  Query arguments are interpolated unescaped into the glob
pattern (src/db.go:133, 141), so the argument `"*"` scans as a wildcard:
`GetObjectsByName "*"` returns the stored record `tiger` whose name `"tx"` is
not the argument, and `ListObjects "*"` returns it although its kind is not
the argument either. -/
theorem wildcard_argument_matches_other_names :
    GetObjectsByName stWild ['*'] = .ok [.animal tiger]
      ∧ tiger.Name ≠ ['*']
      ∧ ListObjects stWild ['*'] = .ok [.animal tiger]
      ∧ (Object.animal tiger).GetKind ≠ ['*'] :=
  ⟨rfl, by decide, rfl, by decide⟩

/-! ### Supporting lemmas -/

/-- A key returned by a scan is a stored key, so fetching it succeeds. -/
theorem mem_keysOf_lookup {st : State} {p k : Str} (h : k ∈ keysOf st p) :
    ∃ v, getVal st k = some v := by
  obtain ⟨kv, hmem, rfl⟩ := List.mem_map.1 h
  have hst : kv ∈ st := List.mem_of_mem_filter hmem
  have hsome : (st.find? fun x => decide (x.1 = kv.1)).isSome := by
    rw [List.find?_isSome]
    exact ⟨kv, hst, by simp⟩
  obtain ⟨y, hy⟩ := Option.isSome_iff_exists.mp hsome
  exact ⟨y.2, by simp [getVal, hy]⟩

/-- A scan of a key-filtered backend is the filtered scan of the backend. -/
theorem keysOf_filter (st : State) (p : Str) (q : Str → Bool) :
    keysOf (st.filter fun kv => q kv.1) p = (keysOf st p).filter q := by
  induction st with
  | nil => rfl
  | cons kv l ih =>
    by_cases h1 : q kv.1 <;> by_cases h2 : globMatch p kv.1 <;>
      simp [keysOf, List.filter_cons, h1, h2] at ih ⊢ <;> simpa [keysOf] using ih

/-- Deleting a pattern's only matched key leaves the pattern with no match. -/
theorem keysOf_delKey (st : State) (p k : Str) (h : keysOf st p = [k]) :
    keysOf (delKey st k) p = [] := by
  have hd : keysOf (delKey st k) p = (keysOf st p).filter fun a => decide (¬ a = k) :=
    keysOf_filter st p fun a => decide (¬ a = k)
  rw [hd, h]
  simp

/-- A successful scan loop yields one record per processed key. -/
theorem extractLoop_ok_length {st : State} {k0 : Str} {ks : List Str}
    {os : List Object} (h : extractLoop st k0 ks = .ok os) :
    os.length = ks.length := by
  induction ks generalizing os with
  | nil =>
    simp [extractLoop] at h
    simp [← h]
  | cons k ks ih =>
    rw [extractLoop] at h
    cases hs : scanStep st k0 k with
    | error e => rw [hs] at h; cases h
    | ok o =>
      rw [hs] at h
      cases hr : extractLoop st k0 ks with
      | error e => rw [hr] at h; cases h
      | ok os' =>
        rw [hr] at h
        cases h
        simp [ih hr]

/-- When any key's processing fails, the scan loop returns an error, and the
error is one raised by the processing of some matched key. -/
theorem extractLoop_error_of_step {st : State} {k0 : Str} {ks : List Str}
    {k : Str} {e : Err} (hk : k ∈ ks) (he : scanStep st k0 k = .error e) :
    ∃ e', extractLoop st k0 ks = .error e'
      ∧ ∃ k', k' ∈ ks ∧ scanStep st k0 k' = .error e' := by
  induction ks with
  | nil => cases hk
  | cons a ks ih =>
    cases hs : scanStep st k0 a with
    | error e2 =>
      exact ⟨e2, by rw [extractLoop, hs], a, by simp, hs⟩
    | ok o =>
      have hk' : k ∈ ks := by
        rcases List.mem_cons.1 hk with rfl | hmem
        · rw [hs] at he; cases he
        · exact hmem
      obtain ⟨e', h1, k', hk2, h3⟩ := ih hk'
      refine ⟨e', ?_, k', List.mem_cons_of_mem _ hk2, h3⟩
      rw [extractLoop, hs, h1]

/-- A string of colon-free characters holds no delimiter occurrence. -/
theorem countDelims_eq_zero {l : Str} (h : ∀ c ∈ l, c ≠ ':') :
    countDelims l = 0 := by
  induction l with
  | nil => rfl
  | cons c rest ih =>
    cases rest with
    | nil => rfl
    | cons d rest' =>
      have hc : c ≠ ':' := h c (by simp)
      rw [countDelims, if_neg (by simp [hc])]
      exact ih fun x hx => h x (List.mem_cons_of_mem _ hx)

/-- Scanning past a leading delimiter counts it once. -/
theorem countDelims_cons_sep (l : Str) :
    countDelims (':' :: ':' :: l) = countDelims l + 1 := by
  rw [countDelims, if_pos ⟨rfl, rfl⟩]

/-- A colon-free leading segment adds no delimiter occurrence. -/
theorem countDelims_noColon_append {i : Str} (hi : ∀ c ∈ i, c ≠ ':')
    (l : Str) : countDelims (i ++ l) = countDelims l := by
  induction i with
  | nil => rfl
  | cons c i' ih =>
    have hc : c ≠ ':' := hi c (by simp)
    have ih' := ih fun x hx => hi x (List.mem_cons_of_mem _ hx)
    rw [List.cons_append]
    cases hrest : i' ++ l with
    | nil =>
      have hl : l = [] := (List.append_eq_nil.mp hrest).2
      simp [hl, countDelims]
    | cons d rest' =>
      rw [countDelims, if_neg (by simp [hc]), ← hrest, ih']

/-- A colon-free trailing segment adds no delimiter occurrence. -/
theorem countDelims_append_noColon {k : Str} (hk : ∀ c ∈ k, c ≠ ':') :
    ∀ l : Str, countDelims (l ++ k) = countDelims l := by
  have H : ∀ (n : Nat) (l : Str), l.length ≤ n →
      countDelims (l ++ k) = countDelims l := by
    intro n
    induction n with
    | zero =>
      intro l hl
      have : l = [] := List.eq_nil_of_length_eq_zero (Nat.le_zero.mp hl)
      subst this
      simpa using countDelims_eq_zero hk
    | succ n ih =>
      intro l hl
      match l with
      | [] => simpa using countDelims_eq_zero hk
      | [c] =>
        rw [List.singleton_append]
        cases k with
        | nil => rfl
        | cons e k' =>
          have he : e ≠ ':' := hk e (by simp)
          calc countDelims (c :: e :: k')
              = countDelims (e :: k') := by
                rw [countDelims, if_neg (by simp [he])]
            _ = 0 := countDelims_eq_zero hk
            _ = countDelims [c] := rfl
      | c :: d :: rest =>
        have hlen : rest.length + 2 ≤ n + 1 := by simpa using hl
        by_cases hcd : c = ':' ∧ d = ':'
        · rw [List.cons_append, List.cons_append, countDelims, if_pos hcd,
            countDelims, if_pos hcd]
          rw [ih rest (by omega)]
        · rw [List.cons_append, List.cons_append, countDelims, if_neg hcd,
            countDelims, if_neg hcd, ← List.cons_append]
          exact ih (d :: rest) (by simpa using Nat.le_of_succ_le_succ hlen)
  intro l
  exact H l.length l le_rfl

/-- A string ending in the delimiter holds at least one occurrence. -/
theorem one_le_countDelims_append_sep (l : Str) :
    1 ≤ countDelims (l ++ sep) := by
  induction l with
  | nil => simp [sep, countDelims_cons_sep]
  | cons c l' ih =>
    rw [List.cons_append]
    cases hrest : l' ++ sep with
    | nil => exact absurd (List.append_eq_nil.mp hrest).2 (by simp [sep])
    | cons e rest' =>
      by_cases hce : c = ':' ∧ e = ':'
      · rw [countDelims, if_pos hce]
        omega
      · rw [countDelims, if_neg hce, ← hrest]
        exact ih

/-- A string containing the delimiter, followed by the delimiter, holds at
least two occurrences. -/
theorem two_le_countDelims_of_hasSub {m : Str} (h : hasSub sep m = true) :
    2 ≤ countDelims (m ++ sep) := by
  induction m with
  | nil => simp [hasSub, hasPre, sep] at h
  | cons c m' ih =>
    rw [hasSub, Bool.or_eq_true] at h
    rw [List.cons_append]
    cases hrest : m' ++ sep with
    | nil => exact absurd (List.append_eq_nil.mp hrest).2 (by simp [sep])
    | cons e rest' =>
      by_cases hce : c = ':' ∧ e = ':'
      · rw [countDelims, if_pos hce]
        cases m' with
        | nil => simp [hasSub, hasPre, sep] at h
        | cons d m'' =>
          rw [show (d :: m'') ++ sep = d :: (m'' ++ sep) from rfl] at hrest
          injection hrest with h1 h2
          have := one_le_countDelims_append_sep m''
          rw [← h2]
          omega
      · rw [countDelims, if_neg hce, ← hrest]
        rcases h with hpre | hsub
        · exfalso
          cases m' with
          | nil => simp [hasPre, sep] at hpre
          | cons d m'' =>
            rw [show (d :: m'') ++ sep = d :: (m'' ++ sep) from rfl] at hrest
            injection hrest with h1 h2
            simp only [sep, hasPre, Bool.and_eq_true, decide_eq_true_eq] at hpre
            exact hce ⟨hpre.1.symm, h1 ▸ hpre.2.1.symm⟩
        · exact ih hsub

/-- `SetID` leaves the name unchanged. -/
theorem GetName_SetID (r : Object) (i : Str) : (r.SetID i).GetName = r.GetName := by
  cases r <;> rfl

/-- `SetID` leaves the kind unchanged. -/
theorem GetKind_SetID (r : Object) (i : Str) : (r.SetID i).GetKind = r.GetKind := by
  cases r <;> rfl

/-- `SetID` sets the id. -/
theorem GetID_SetID (r : Object) (i : Str) : (r.SetID i).GetID = i := by
  cases r <;> rfl

/-- A string free of the delimiter is something `afterLastSep` finds nothing
in. -/
theorem afterLastSep_eq_none {l : Str} (h : hasSub sep l = false) :
    afterLastSep l = none := by
  induction l with
  | nil => rfl
  | cons c l' ih =>
    cases l' with
    | nil => rfl
    | cons d rest =>
      rw [hasSub, Bool.or_eq_false_iff] at h
      rw [afterLastSep, ih h.2]
      have hnp : ¬ (c = ':' ∧ d = ':') := by
        intro ⟨h1, h2⟩
        subst h1; subst h2
        simp [hasPre, sep] at h
      rw [if_neg hnp]

/-- When no delimiter occurrence follows the split point — not inside `ks` and
not straddling into it — `afterLastSep` returns the suffix `ks`. -/
theorem afterLastSep_append {ks : Str} (hlast : hasSub sep (':' :: ks) = false) :
    ∀ p : Str, afterLastSep (p ++ sep ++ ks) = some ks := by
  intro p
  induction p with
  | nil =>
    rw [show ([] : Str) ++ sep ++ ks = ':' :: ':' :: ks from rfl]
    rw [afterLastSep]
    rw [afterLastSep_eq_none hlast]
    rfl
  | cons c p' ih =>
    rw [show (c :: p') ++ sep ++ ks = c :: (p' ++ sep ++ ks) by simp]
    rcases hsh : p' ++ sep ++ ks with _ | ⟨d, rest⟩
    · exfalso
      have : (p' ++ sep ++ ks).length = 0 := by rw [hsh]; rfl
      simp [sep] at this
    · rw [afterLastSep, ← hsh, ih]

/-! ### Claim theorems, continued -/

/-- Claim C5.  `GetObjectByID` is a trichotomy on the keys matching the
id-scan pattern (src/db.go:105-126): no match is the not-found error, a
single match is fetched and deserialized through the kind decoded from that
key, and more than one match is the ambiguous-id error — no match is silently
picked. -/
theorem getObjectByID_trichotomy (st : State) (id : Str) :
    (keysOf st (patById id) = [] → GetObjectByID st id = .error .notFound)
      ∧ (∀ k, keysOf st (patById id) = [k] →
          ∃ v, getVal st k = some v ∧ GetObjectByID st id = extractObject k v)
      ∧ (2 ≤ (keysOf st (patById id)).length →
          GetObjectByID st id = .error .ambiguousID) := by
  refine ⟨fun h => ?_, fun k hk => ?_, fun h2 => ?_⟩
  · simp [GetObjectByID, h]
  · have hmem : k ∈ keysOf st (patById id) := by simp [hk]
    obtain ⟨v, hv⟩ := mem_keysOf_lookup hmem
    exact ⟨v, hv, by simp [GetObjectByID, hk, hv]⟩
  · rcases hK : keysOf st (patById id) with _ | ⟨a, _ | ⟨b, l⟩⟩
    · rw [hK] at h2; simp at h2
    · rw [hK] at h2; simp at h2
    · simp [GetObjectByID, hK]

/-- Claim C7.  `DeleteObject` (src/db.go:144-165) is idempotent: with no
matching key it succeeds leaving the backend unchanged, with one matching key
it deletes exactly that key, with several it fails with the ambiguous-id
error — and whenever a delete succeeds, deleting the same id again succeeds
as a no-op. -/
theorem deleteObject_trichotomy_idempotent (st : State) (id : Str) :
    (keysOf st (patById id) = [] → DeleteObject st id = .ok st)
      ∧ (∀ k, keysOf st (patById id) = [k] →
          DeleteObject st id = .ok (delKey st k))
      ∧ (2 ≤ (keysOf st (patById id)).length →
          DeleteObject st id = .error .ambiguousID)
      ∧ (∀ st', DeleteObject st id = .ok st' → DeleteObject st' id = .ok st') := by
  refine ⟨fun h => ?_, fun k hk => ?_, fun h2 => ?_, fun st' hok => ?_⟩
  · simp [DeleteObject, h]
  · simp [DeleteObject, hk]
  · rcases hK : keysOf st (patById id) with _ | ⟨a, _ | ⟨b, l⟩⟩
    · rw [hK] at h2; simp at h2
    · rw [hK] at h2; simp at h2
    · simp [DeleteObject, hK]
  · rcases hK : keysOf st (patById id) with _ | ⟨a, _ | ⟨b, l⟩⟩
    · simp [DeleteObject, hK] at hok
      subst hok
      simp [DeleteObject, hK]
    · simp [DeleteObject, hK] at hok
      have hempty : keysOf st' (patById id) = [] := by
        rw [← hok]
        exact keysOf_delKey st _ a hK
      simp [DeleteObject, hempty]
    · simp [DeleteObject, hK] at hok

/-- Claim C8.  A multi-record scan never returns a partial list: a successful
`listObjects` yields one record per matched key, and when the processing of
any matched key fails, the whole call returns an error raised by some matched
key's processing, with no records (src/db.go:54-65); `GetObjectsByName` and
`ListObjects` are that scan on their respective patterns. -/
theorem listObjects_no_partial_batch (st : State) (pattern : Str) :
    (∀ os, listObjects st pattern = .ok os →
        os.length = (keysOf st pattern).length)
      ∧ ((∃ k, k ∈ keysOf st pattern
            ∧ ∃ e, scanStep st ((keysOf st pattern).headD []) k = .error e) →
          ∃ e', listObjects st pattern = .error e'
            ∧ ∃ k', k' ∈ keysOf st pattern
              ∧ scanStep st ((keysOf st pattern).headD []) k' = .error e')
      ∧ (∀ name, ¬ name = [] →
          GetObjectsByName st name = listObjects st (patByName name))
      ∧ (∀ kind, ¬ kind = [] →
          ListObjects st kind = listObjects st (patByKind kind)) := by
  refine ⟨fun os hos => ?_, fun ⟨k, hk, e, he⟩ => ?_, fun n hn => ?_, fun kd hkd => ?_⟩
  · rcases hK : keysOf st pattern with _ | ⟨k0, rest⟩
    · rw [listObjects, hK] at hos
      cases hos
      simp [hK]
    · rw [listObjects, hK] at hos
      exact extractLoop_ok_length hos
  · rcases hK : keysOf st pattern with _ | ⟨k0, rest⟩
    · rw [hK] at hk; cases hk
    · rw [hK] at hk he
      obtain ⟨e', h1, k', hk2, h3⟩ := extractLoop_error_of_step hk he
      refine ⟨e', ?_, k', hk2, h3⟩
      rw [listObjects, hK]
      simpa using h1
  · simp [GetObjectsByName, hn]
  · simp [ListObjects, hkd]

/-- Claim C9.  `Store` is not atomic on failure with respect to the caller's
record: for a record whose name contains `"::"` (with a colon-free generated
id and kind), the call returns the restricted-delimiter error and writes
nothing, but the record it hands back has already had its id overwritten with
the fresh id by `SetID` (src/db.go:90), which runs before the delimiter check
(line 93). -/
theorem store_mutates_id_before_validation (st : State) (r : Object) (i : Str)
    (hname : hasSub sep r.GetName = true)
    (hid : ∀ c ∈ i, c ≠ ':')
    (hkind : ∀ c ∈ r.GetKind, c ≠ ':') :
    Store st r i = (r.SetID i, .error .restrictedDelimiter)
      ∧ (r.SetID i).GetID = i := by
  have hkey : 3 ≤ countDelims (storeKey i (r.SetID i)) := by
    rw [storeKey, GetName_SetID, GetKind_SetID]
    rw [countDelims_append_noColon hkind]
    rw [show i ++ sep ++ r.GetName ++ sep
          = i ++ (sep ++ (r.GetName ++ sep)) by simp [List.append_assoc]]
    rw [countDelims_noColon_append hid]
    rw [show sep ++ (r.GetName ++ sep) = ':' :: ':' :: (r.GetName ++ sep) from rfl]
    rw [countDelims_cons_sep]
    have := two_le_countDelims_of_hasSub hname
    omega
  have hne : countDelims (storeKey i (r.SetID i)) ≠ 2 := by omega
  refine ⟨?_, GetID_SetID r i⟩
  simp only [Store]
  rw [if_pos hne]

/-- Witness for claim C9 at a concrete input: storing a person named
`"a::b"` under fresh id `"u1"` fails with the delimiter error, yet hands back
the record with its id already set to `"u1"`. -/
theorem store_mutates_id_before_validation_witness :
    Store [] (Object.person aliceAB) uuidA
        = ((Object.person aliceAB).SetID uuidA, .error .restrictedDelimiter)
      ∧ ((Object.person aliceAB).SetID uuidA).GetID = uuidA :=
  store_mutates_id_before_validation [] (Object.person aliceAB) uuidA
    (by decide) (by decide) (by decide)

/-- Claim C6, counterexample.  The claim quantifies over every key containing
`"::"`, but Go's RE2 `.` does not match a newline: on the key `"x\n::b"` —
which contains `"::"`, and whose substring after the final `"::"` is `"b"` —
`getKind` returns `""`, not `"b"`. -/
theorem getKind_newline_counterexample :
    ['x', '\n'] ++ sep ++ ['b'] = ['x', '\n', ':', ':', 'b']
      ∧ hasSub sep ['x', '\n', ':', ':', 'b'] = true
      ∧ hasSub sep (':' :: ['b']) = false
      ∧ getKind ['x', '\n', ':', ':', 'b'] = []
      ∧ ([] : Str) ≠ ['b'] :=
  ⟨rfl, rfl, rfl, rfl, by decide⟩

/-- Claim C6, amended.  For every newline-free key containing at least one
occurrence of `"::"`, `getKind` returns exactly the substring after the final
occurrence (`ks` here, the split being final precisely when no occurrence
lies inside `':' :: ks`); hyphens or single colons earlier in the key do not
change the split point. -/
theorem getKind_after_last_delim (key p ks : Str)
    (hnl : key.contains '\n' = false)
    (hsplit : key = p ++ sep ++ ks)
    (hlast : hasSub sep (':' :: ks) = false) :
    getKind key = ks := by
  subst hsplit
  rw [getKind, if_neg (by rw [hnl]; simp), afterLastSep_append hlast p]

/-- Witness for the amended claim C6 at a concrete input: in the key
`"a-b:c::kd"` the id part carries a hyphen and a single colon, and the kind
extracted is the suffix `"kd"` after the (only and final) `"::"`. -/
theorem getKind_after_last_delim_witness :
    getKind ['a', '-', 'b', ':', 'c', ':', ':', 'k', 'd'] = ['k', 'd'] :=
  getKind_after_last_delim ['a', '-', 'b', ':', 'c', ':', ':', 'k', 'd']
    ['a', '-', 'b', ':', 'c'] ['k', 'd'] (by decide) (by decide) (by decide)

/-! ### The repository's second variant (src/unnamed/part_000) -/

/-- In the part_000 variant the round trip does return the assigned id: the
payload is marshalled after `SetID`, so `GetObjectByID` of the fresh id
yields the record with that id. -/
theorem store_v2_roundtrip_assigned_id :
    (Store_v2 [] (Object.person alice) uuidA).2
        = .ok [(storeKey uuidA ((Object.person alice).SetID uuidA),
                marshal ((Object.person alice).SetID uuidA))]
      ∧ GetObjectByID
          [(storeKey uuidA ((Object.person alice).SetID uuidA),
            marshal ((Object.person alice).SetID uuidA))] uuidA
        = .ok ((Object.person alice).SetID uuidA)
      ∧ ((Object.person alice).SetID uuidA).GetID = uuidA :=
  ⟨rfl, rfl, rfl⟩

/-- The part_000 variant rejects an empty name up front
(src/unnamed/part_000:74-76). -/
theorem store_v2_rejects_empty_name :
    (Store_v2 [] (Object.person aliceNoName) uuidA).2 = .error .missingName :=
  rfl

end ObjectStore
